import Mathlib

/-!
Shallow embedding of `install_ffmpeg.js` (stinkydev/beamcoder): the
platform-dispatch acquisition workflow.  Pure functions below are direct
translations of the source; event traces model the asynchronous parts
(the unzip promise with its `handles` ledger).
-/

set_option maxHeartbeats 1000000

namespace InstallFfmpeg

/-! ## Strings and substring search

JavaScript `hay.indexOf(needle) >= 0` is modelled on `List Char` by
`hasSub`.  `OccursIn` is the specification-side proposition that `needle`
occurs contiguously inside `hay`. -/

/-- Prefix test: `isPre n h` is true when the list `n` is an initial
segment of `h`. -/
def isPre : List Char → List Char → Bool
  | [], _ => true
  | _ :: _, [] => false
  | a :: as, b :: bs => if a = b then isPre as bs else false

/-- Substring test, modelling JavaScript `hay.indexOf(needle) >= 0`:
`needle` occurs starting at some position of `hay`. -/
def hasSub (hay needle : List Char) : Bool :=
  match hay with
  | [] => isPre needle []
  | c :: rest => isPre needle (c :: rest) || hasSub rest needle

/-- Specification-side statement that `needle` occurs as a contiguous
substring of `hay`. -/
def OccursIn (needle hay : List Char) : Prop :=
  ∃ pre post, hay = pre ++ needle ++ post

theorem isPre_iff (n : List Char) : ∀ h : List Char,
    isPre n h = true ↔ ∃ t, h = n ++ t := by
  induction n with
  | nil => intro h; simp [isPre]
  | cons a as ih =>
    intro h
    cases h with
    | nil => simp [isPre]
    | cons b bs =>
      by_cases hab : a = b
      · subst hab
        have h1 : isPre (a :: as) (a :: bs) = isPre as bs := by simp [isPre]
        rw [h1, ih bs]
        constructor
        · rintro ⟨t, rfl⟩; exact ⟨t, by simp⟩
        · rintro ⟨t, ht⟩
          rw [List.cons_append] at ht
          injection ht with h2 h3
          exact ⟨t, h3⟩
      · have h1 : isPre (a :: as) (b :: bs) = false := by simp [isPre, hab]
        rw [h1]
        simp only [Bool.false_eq_true, false_iff]
        rintro ⟨t, ht⟩
        rw [List.cons_append] at ht
        injection ht with h2 h3
        exact hab h2.symm

theorem hasSub_iff (needle : List Char) : ∀ hay : List Char,
    hasSub hay needle = true ↔ OccursIn needle hay := by
  intro hay
  induction hay with
  | nil =>
    simp only [hasSub, isPre_iff, OccursIn]
    constructor
    · rintro ⟨t, ht⟩
      exact ⟨[], t, by simpa using ht⟩
    · rintro ⟨pre, post, h⟩
      have hpre : pre = [] := by
        cases pre with
        | nil => rfl
        | cons x xs => simp at h
      subst hpre
      exact ⟨post, by simpa using h⟩
  | cons c rest ih =>
    simp only [hasSub, Bool.or_eq_true, isPre_iff, ih, OccursIn]
    constructor
    · rintro (⟨t, ht⟩ | ⟨pre, post, h⟩)
      · exact ⟨[], t, by simpa using ht⟩
      · exact ⟨c :: pre, post, by simp [h]⟩
    · rintro ⟨pre, post, h⟩
      cases pre with
      | nil => exact Or.inl ⟨post, by simpa using h⟩
      | cons x xs =>
        simp only [List.cons_append, List.cons.injEq] at h
        exact Or.inr ⟨xs, post, h.2⟩

instance (needle hay : List Char) : Decidable (OccursIn needle hay) :=
  decidable_of_iff (hasSub hay needle = true) (hasSub_iff needle hay)

/-! ## Transfer Agent: function `get` (lines 30-54)

`get` observes one HTTPS response.  On status 301 or 302 the promise is
rejected with a `RedirectError` whose message is the `Location` header and
`res.pipe(ws)` is never invoked, so nothing reaches the sink.  Otherwise
the body is piped to the sink chunk by chunk and the promise resolves on
the `end` event. -/

/-- An HTTP response as the source observes it: status code, optional
`Location` header, optional `Content-Length`, and the body chunks
delivered by `data` events (bytes as naturals). -/
structure HttpResponse where
  statusCode : Nat
  location : Option String
  contentLength : Option Nat
  chunks : List (List Nat)
deriving DecidableEq

/-- Terminal outcome of `get`: rejection with `RedirectError` carrying the
`Location` header value, or successful completion. -/
inductive GetOutcome where
  | redirectError (location : Option String)
  | success
deriving DecidableEq

/-- Shallow embedding of `get`: returns the outcome together with the
bytes written to the sink `ws`. -/
def get (res : HttpResponse) : GetOutcome × List Nat :=
  if res.statusCode = 301 ∨ res.statusCode = 302 then
    (GetOutcome.redirectError res.location, [])
  else
    (GetOutcome.success, res.chunks.flatten)

/-! ## Platform Dispatcher: the top-level switch (lines 258-286) -/

/-- Host platform as reported by `os.platform()`. -/
inductive Platform where
  | win32
  | linux
  | darwin
  | other (name : String)
deriving DecidableEq

/-- Host architecture as reported by `os.arch()`. -/
inductive Arch where
  | x64
  | arm64
  | other (name : String)
deriving DecidableEq

/-- What the top-level switch does before any branch body runs: call
`process.exit(1)`, run exactly one acquisition branch, or (default case)
print the unsupported-platform message and fall through, letting the
process end normally with status 0. -/
inductive DispatchAction where
  | exitOne
  | runWin32
  | runLinux
  | runDarwin
  | printUnsupportedAndContinue
deriving DecidableEq

/-- Shallow embedding of the platform dispatch switch.  Note the default
case only logs; it does not call `process.exit`. -/
def dispatch (p : Platform) (a : Arch) : DispatchAction :=
  match p with
  | Platform.win32 => if a ≠ Arch.x64 then DispatchAction.exitOne else DispatchAction.runWin32
  | Platform.linux =>
    if a ≠ Arch.x64 ∧ a ≠ Arch.arm64 then DispatchAction.exitOne else DispatchAction.runLinux
  | Platform.darwin =>
    if a ≠ Arch.x64 ∧ a ≠ Arch.arm64 then DispatchAction.exitOne else DispatchAction.runDarwin
  | Platform.other _ => DispatchAction.printUnsupportedAndContinue

/-- Process exit status implied by a dispatch action when no branch body
runs afterwards: `process.exit(1)` yields 1, the default case only prints
and the process terminates normally with 0. -/
def dispatchImmediateExit : DispatchAction → Option Nat
  | DispatchAction.exitOne => some 1
  | DispatchAction.printUnsupportedAndContinue => some 0
  | _ => none

/-! ## Library Verifier: function `linux` (lines 179-224) -/

/-- The eight required shared-library name+version strings, in the order
the source checks them. -/
def requiredLibs : List (List Char) :=
  ["libavcodec.so.59".toList, "libavformat.so.59".toList,
   "libavdevice.so.59".toList, "libavfilter.so.8".toList,
   "libavutil.so.57".toList, "libpostproc.so.56".toList,
   "libswresample.so.4".toList, "libswscale.so.6".toList]

/-- The libraries whose exact string is absent from the `ldconfig -p`
listing (those with `stdout.indexOf(lib) < 0`), in check order. -/
def missingLibs (listing : List Char) : List (List Char) :=
  requiredLibs.filter (fun lib => ! hasSub listing lib)

/-- The `console.error` lines produced by the `linux` run: one
`<lib> is not installed.` line per missing library, in check order. -/
def linuxErrors (listing : List Char) : List (List Char) :=
  (missingLibs listing).map (fun lib => lib ++ " is not installed.".toList)

/-- The fixed remediation hint printed once when `result` ends up 1
(lines 218-220). -/
def remediationText : List Char :=
  ("Try running the following (Ubuntu/Debian):\nsudo add-apt-repository ppa:jonathonf/ffmpeg-4\nsudo apt-get install libavcodec-dev libavformat-dev libavdevice-dev libavfilter-dev libavutil-dev libpostproc-dev libswresample-dev libswscale-dev").toList

/-- The remediation messages printed by one `linux` run: exactly one block
when some library is missing, none otherwise. -/
def linuxRemediations (listing : List Char) : List (List Char) :=
  if missingLibs listing = [] then [] else [remediationText]

/-- Exit status of the `linux` branch: `process.exit(1)` when any library
is missing, otherwise the function returns 0 and the process ends
normally with status 0. -/
def linuxExit (listing : List Char) : Nat :=
  if missingLibs listing = [] then 0 else 1

/-- The apt package name for a required library soname: the part before
the first dot with `-dev` appended (`libavcodec.so.59` gives
`libavcodec-dev`). -/
def devPackage (lib : List Char) : List Char :=
  lib.takeWhile (fun c => decide (c ≠ '.')) ++ "-dev".toList

/-! ## Package-Manager Bridge: function `darwin` (lines 226-256) -/

/-- Result of one `await exec(cmd)`: resolution with the captured stdout,
or rejection with an error carrying the captured stderr. -/
inductive ExecResult where
  | ok (stdout : List Char)
  | error (stderr : List Char)
deriving DecidableEq

/-- Observable outcome of the `darwin` branch. -/
inductive DarwinOutcome where
  | alreadyPresent
  | installedNow
  | exitOne
deriving DecidableEq

/-- The recognized not-found signal in the failed query's stderr
(line 235): the code is fatal exactly when stderr contains neither
`Error: No such keg` nor `ffmpeg@5`. -/
def notFoundSignal (stderr : List Char) : Bool :=
  hasSub stderr "Error: No such keg".toList || hasSub stderr "ffmpeg@5".toList

/-- Shallow embedding of `darwin`: given the result of the
`brew list ffmpeg@5` query and the result the `brew install` command
would have, returns the outcome together with whether installation was
attempted. -/
def darwin (query : ExecResult) (install : ExecResult) : DarwinOutcome × Bool :=
  match query with
  | ExecResult.ok _ => (DarwinOutcome.alreadyPresent, false)
  | ExecResult.error stderr =>
    if ! notFoundSignal stderr then (DarwinOutcome.exitOne, false)
    else
      match install with
      | ExecResult.ok _ => (DarwinOutcome.installedNow, true)
      | ExecResult.error _ => (DarwinOutcome.exitOne, true)

/-- Process exit status for each darwin outcome: `process.exit(1)` on the
fatal paths, normal termination with 0 otherwise. -/
def darwinExit : DarwinOutcome → Nat
  | DarwinOutcome.alreadyPresent => 0
  | DarwinOutcome.installedNow => 0
  | DarwinOutcome.exitOne => 1

/-! ## Windows branch: function `win32` (lines 152-177)

The branch is modelled by the list of observable steps it performs, as a
function of whether the target directory is already readable and of the
outcomes of the first and (when a redirect was signalled) second
transfer.  Key control-flow facts from the source: a non-redirect
rejection of the first `get` is caught and only logged
(`else console.error(err)`), after which the chain continues; a rejection
of the second `get` (including a second redirect) has no handler, so it
propagates out of `win32()` to the top-level `.catch(console.error)` and
the remaining steps do not run. -/

/-- Outcome of one `get` call as seen by the `win32` chain. -/
inductive TransferOutcome where
  | ok
  | redirect (location : String)
  | failure
deriving DecidableEq

/-- Observable steps of the `win32` branch, in order. -/
inductive WinStep where
  | mkdirFfmpeg
  | transferFirst
  | transferRedirected
  | logTransferError
  | installYauzl
  | unzip
  | renameRoot
deriving DecidableEq

/-- Shallow embedding of `win32` as the ordered list of steps performed,
given whether `ffmpeg/<name>` is already readable and the outcomes of the
two possible transfers. -/
def win32Steps (dirPresent : Bool) (first : TransferOutcome)
    (second : TransferOutcome) : List WinStep :=
  if dirPresent then [WinStep.mkdirFfmpeg]
  else
    WinStep.mkdirFfmpeg :: WinStep.transferFirst ::
      (match first with
       | TransferOutcome.ok =>
         [WinStep.installYauzl, WinStep.unzip, WinStep.renameRoot]
       | TransferOutcome.failure =>
         [WinStep.logTransferError, WinStep.installYauzl, WinStep.unzip,
          WinStep.renameRoot]
       | TransferOutcome.redirect _ =>
         WinStep.transferRedirected ::
           (match second with
            | TransferOutcome.ok =>
              [WinStep.installYauzl, WinStep.unzip, WinStep.renameRoot]
            | TransferOutcome.failure => []
            | TransferOutcome.redirect _ => []))

/-! ## Archive Extractor, entry handling: `unzipFile` (lines 110-141)

The per-entry behaviour on the success path is a fold over the entry
names in enumeration order: a name with a trailing slash is skipped, any
other name is streamed to `path.join(destFolder, fileName)`, and
`rootPath` takes `fileName.split(SLASH)[0]` of the current entry whenever
it is still the empty string. -/

/-- True when the entry name matches the trailing-slash directory test. -/
def isDirEntry (name : List Char) : Bool :=
  match name.getLast? with
  | some c => decide (c = '/')
  | none => false

/-- `fileName.split(SLASH)[0]`: the characters before the first slash. -/
def topSegment (name : List Char) : List Char :=
  name.takeWhile (fun c => decide (c ≠ '/'))

/-- Model of `path.join(destFolder, fileName)`. -/
def pathJoin (dest name : List Char) : List Char :=
  dest ++ '/' :: name

/-- One step of the `entry` handler: accumulator is the list of file
paths written so far and the current `rootPath`. -/
def entryStep (dest : List Char) (acc : List (List Char) × List Char)
    (name : List Char) : List (List Char) × List Char :=
  if isDirEntry name then acc
  else (acc.1 ++ [pathJoin dest name],
        if acc.2 = [] then topSegment name else acc.2)

/-- Files written and root entry name recorded after processing all
entries in enumeration order, starting from no files and an empty
`rootPath`. -/
def unzipEntries (dest : List Char) (entries : List (List Char)) :
    List (List Char) × List Char :=
  entries.foldl (entryStep dest) ([], [])

/-- The root name the source ends up with: the first nonempty top-level
segment among the non-directory entries, or the empty string when there
is none. -/
def firstRootName (entries : List (List Char)) : List Char :=
  match entries with
  | [] => []
  | e :: rest =>
    if isDirEntry e then firstRootName rest
    else if topSegment e = [] then firstRootName rest
    else topSegment e

/-! ## Archive Extractor, completion ledger: `unzipFile` (lines 90-149)

The promise executor keeps a `handles` counter: one `incHandles()` before
`yauzl.open` (so the enumeration itself holds a slot), one `incHandles()`
when a write stream is created for a file entry, one `decHandles()` when
that write stream emits `close`, and one `decHandles()` on the zipfile
`end` event.  `resolve(rootPath)` runs inside `decHandles` exactly when
the counter reaches 0.  A run is modelled as the list of counter events
in the order the event loop delivers them; the initial `incHandles` is
folded into the counter's starting value 1. -/

/-- One `handles` counter event of an `unzipFile` run: creation of the
write stream for file entry `i`, the `close` event of that stream, or the
zipfile `end` event. -/
inductive ZipEvent where
  | openWrite (i : Nat)
  | closeWrite (i : Nat)
  | enumEnd
deriving DecidableEq

/-- Effect of one event on the `handles` counter. -/
def zipStep (h : Int) (e : ZipEvent) : Int :=
  match e with
  | ZipEvent.openWrite _ => h + 1
  | ZipEvent.closeWrite _ => h - 1
  | ZipEvent.enumEnd => h - 1

/-- Value of the `handles` counter after a sequence of events, starting
from 1 (the `incHandles()` issued before `yauzl.open`).  `resolve` fires
exactly at the prefixes where this reaches 0. -/
def handlesAfter (t : List ZipEvent) : Int :=
  t.foldl zipStep 1

/-- Indices of the write streams opened during a trace, in order. -/
def openIdxs (t : List ZipEvent) : List Nat :=
  t.filterMap (fun e => match e with | ZipEvent.openWrite i => some i | _ => none)

/-- Indices of the write streams closed during a trace, in order. -/
def closeIdxs (t : List ZipEvent) : List Nat :=
  t.filterMap (fun e => match e with | ZipEvent.closeWrite i => some i | _ => none)

/-- Number of zipfile `end` events in a trace. -/
def endCount (t : List ZipEvent) : Nat :=
  t.countP (fun e => decide (e = ZipEvent.enumEnd))

/-- The traces a run of `unzipFile` can produce, as forced by the source:
each write stream opens at most once and closes at most once; a `close`
event belongs to a stream opened earlier; the zipfile `end` event fires
at most once; and every write-stream open happens before the `end` event,
because `openReadStream`'s callback for entry `n` runs before
`readEntry()` requests entry `n+1` and `end` is emitted only after the
last such request. -/
def ZipWF (t : List ZipEvent) : Prop :=
  (openIdxs t).Nodup ∧ (closeIdxs t).Nodup ∧ endCount t ≤ 1 ∧
  ∀ n, n ≤ t.length →
    (∀ i ∈ closeIdxs (t.take n), i ∈ openIdxs (t.take n)) ∧
    (1 ≤ endCount (t.take n) → openIdxs (t.take n) = openIdxs t)

instance zipWFDecidable (t : List ZipEvent) : Decidable (ZipWF t) := by
  unfold ZipWF
  infer_instance

theorem foldl_zipStep (t : List ZipEvent) : ∀ h : Int,
    t.foldl zipStep h
      = h + (openIdxs t).length - (closeIdxs t).length - (endCount t : Int) := by
  induction t with
  | nil => intro h; simp [openIdxs, closeIdxs, endCount]
  | cons e rest ih =>
    intro h
    cases e <;>
      simp only [List.foldl_cons, zipStep, ih, openIdxs, closeIdxs, endCount,
        List.filterMap_cons, List.countP_cons, List.length_cons, decide_eq_true_eq] <;>
      simp [openIdxs, closeIdxs, endCount] <;> omega

/-- Closed form for the counter: starting slot plus opens minus closes
minus end events. -/
theorem handlesAfter_eq (t : List ZipEvent) :
    handlesAfter t
      = 1 + (openIdxs t).length - (closeIdxs t).length - (endCount t : Int) :=
  foldl_zipStep t 1

/-- Every event contributes to exactly one of the three counts. -/
theorem length_eq_counts (t : List ZipEvent) :
    t.length = (openIdxs t).length + (closeIdxs t).length + endCount t := by
  induction t with
  | nil => simp [openIdxs, closeIdxs, endCount]
  | cons e rest ih =>
    cases e <;>
      simp only [openIdxs, closeIdxs, endCount, List.filterMap_cons,
        List.countP_cons, List.length_cons, decide_eq_true_eq] <;>
      simp [openIdxs, closeIdxs, endCount] at ih ⊢ <;> omega

theorem openIdxs_append (s u : List ZipEvent) :
    openIdxs (s ++ u) = openIdxs s ++ openIdxs u := by
  simp [openIdxs]

theorem closeIdxs_append (s u : List ZipEvent) :
    closeIdxs (s ++ u) = closeIdxs s ++ closeIdxs u := by
  simp [closeIdxs]

theorem endCount_append (s u : List ZipEvent) :
    endCount (s ++ u) = endCount s + endCount u := by
  simp [endCount]

theorem openIdxs_take_nodup {t : List ZipEvent} (h : (openIdxs t).Nodup)
    (n : Nat) : (openIdxs (t.take n)).Nodup :=
  ((List.take_sublist n t).filterMap _).nodup h

theorem closeIdxs_take_nodup {t : List ZipEvent} (h : (closeIdxs t).Nodup)
    (n : Nat) : (closeIdxs (t.take n)).Nodup :=
  ((List.take_sublist n t).filterMap _).nodup h

/-- Counting helper: a duplicate-free list of naturals contained in
another duplicate-free list is no longer than it. -/
theorem nodup_subset_length_le {l₁ l₂ : List Nat} (h₁ : l₁.Nodup)
    (h₂ : l₂.Nodup) (hsub : ∀ i ∈ l₁, i ∈ l₂) : l₁.length ≤ l₂.length := by
  have hfin : l₁.toFinset ⊆ l₂.toFinset := by
    intro i hi
    rw [List.mem_toFinset] at hi ⊢
    exact hsub i hi
  have := Finset.card_le_card hfin
  rwa [List.toFinset_card_of_nodup h₁, List.toFinset_card_of_nodup h₂] at this

/-- Counting helper: the containment reverses when the lengths agree. -/
theorem nodup_subset_length_ge {l₁ l₂ : List Nat} (h₁ : l₁.Nodup)
    (h₂ : l₂.Nodup) (hsub : ∀ i ∈ l₁, i ∈ l₂)
    (hlen : l₂.length ≤ l₁.length) : ∀ i ∈ l₂, i ∈ l₁ := by
  have hfin : l₁.toFinset ⊆ l₂.toFinset := by
    intro i hi
    rw [List.mem_toFinset] at hi ⊢
    exact hsub i hi
  have hcard : l₂.toFinset.card ≤ l₁.toFinset.card := by
    rwa [List.toFinset_card_of_nodup h₁, List.toFinset_card_of_nodup h₂]
  have heq := Finset.eq_of_subset_of_card_le hfin hcard
  intro i hi
  rw [← List.mem_toFinset, ← heq, List.mem_toFinset] at hi
  exact hi

/-- In every well-formed prefix, no more streams have closed than have
opened. -/
theorem closes_le_opens {t : List ZipEvent} (hwf : ZipWF t) (n : Nat)
    (hn : n ≤ t.length) :
    (closeIdxs (t.take n)).length ≤ (openIdxs (t.take n)).length :=
  nodup_subset_length_le (closeIdxs_take_nodup hwf.2.1 n)
    (openIdxs_take_nodup hwf.1 n) ((hwf.2.2.2 n hn).1)

theorem endCount_take_le {t : List ZipEvent} (hwf : ZipWF t) (n : Nat) :
    endCount (t.take n) ≤ 1 :=
  le_trans ((List.take_sublist n t).countP_le _) hwf.2.2.1

/-- At a prefix where the counter reaches 0, the `end` event has fired,
as many closes as opens have happened, and every open of the whole run
already lies in the prefix. -/
theorem zero_prefix_analysis {t : List ZipEvent} (hwf : ZipWF t) {n : Nat}
    (hn : n ≤ t.length) (h0 : handlesAfter (t.take n) = 0) :
    endCount (t.take n) = 1 ∧
    (closeIdxs (t.take n)).length = (openIdxs (t.take n)).length ∧
    openIdxs (t.take n) = openIdxs t := by
  have hle := closes_le_opens hwf n hn
  have hE := endCount_take_le hwf n
  have heq := handlesAfter_eq (t.take n)
  rw [h0] at heq
  refine ⟨by omega, by omega, (hwf.2.2.2 n hn).2 (by omega)⟩

/-- The `handles` counter never goes negative along a well-formed run. -/
theorem handles_nonneg {t : List ZipEvent} (hwf : ZipWF t) (n : Nat) :
    0 ≤ handlesAfter (t.take n) := by
  by_cases hn : n ≤ t.length
  · have hle := closes_le_opens hwf n hn
    have hE := endCount_take_le hwf n
    rw [handlesAfter_eq]
    omega
  · rw [List.take_of_length_le (by omega)]
    have hle := closes_le_opens hwf t.length le_rfl
    have hE := endCount_take_le hwf t.length
    rw [List.take_length] at hle hE
    rw [handlesAfter_eq]
    omega

/-- The counter reaches 0 at no more than one prefix of a well-formed
run, so `resolve` fires at most once. -/
theorem complete_unique {t : List ZipEvent} (hwf : ZipWF t) :
    ∀ n m, n ≤ t.length → m ≤ t.length →
      handlesAfter (t.take n) = 0 → handlesAfter (t.take m) = 0 → n = m := by
  have key : ∀ n m, n ≤ m → m ≤ t.length → handlesAfter (t.take n) = 0 →
      handlesAfter (t.take m) = 0 → n = m := by
    intro n m hnm hm h0n h0m
    have hn : n ≤ t.length := le_trans hnm hm
    obtain ⟨hEn, hCOn, hOn⟩ := zero_prefix_analysis hwf hn h0n
    obtain ⟨hEm, hCOm, hOm⟩ := zero_prefix_analysis hwf hm h0m
    have hsplit : t.take m = t.take n ++ (t.drop n).take (m - n) := by
      have h2 := List.take_add t n (m - n)
      rw [show n + (m - n) = m from by omega] at h2
      exact h2
    have hOlen : (openIdxs (t.take m)).length
        = (openIdxs (t.take n)).length + (openIdxs ((t.drop n).take (m - n))).length := by
      rw [hsplit, openIdxs_append, List.length_append]
    have hClen : (closeIdxs (t.take m)).length
        = (closeIdxs (t.take n)).length + (closeIdxs ((t.drop n).take (m - n))).length := by
      rw [hsplit, closeIdxs_append, List.length_append]
    have hElen : endCount (t.take m)
        = endCount (t.take n) + endCount ((t.drop n).take (m - n)) := by
      rw [hsplit, endCount_append]
    have hOtot : (openIdxs (t.take n)).length = (openIdxs t).length :=
      congrArg List.length hOn
    have hOtot2 : (openIdxs (t.take m)).length = (openIdxs t).length :=
      congrArg List.length hOm
    have hseglen : ((t.drop n).take (m - n)).length = m - n := by
      rw [List.length_take, List.length_drop]
      omega
    have hcounts := length_eq_counts ((t.drop n).take (m - n))
    omega
  intro n m hn hm h0n h0m
  rcases le_total n m with h | h
  · exact key n m h hm h0n h0m
  · exact (key m n h hn h0m h0n).symm

/-- Closed form of the entry fold from an arbitrary accumulator. -/
theorem foldl_entryStep (dest : List Char) :
    ∀ (entries : List (List Char)) (fs : List (List Char)) (r : List Char),
    entries.foldl (entryStep dest) (fs, r)
      = (fs ++ (entries.filter (fun n => ! isDirEntry n)).map (pathJoin dest),
         if r = [] then firstRootName entries else r) := by
  intro entries
  induction entries with
  | nil =>
    intro fs r
    by_cases hr : r = [] <;> simp [firstRootName, hr]
  | cons e rest ih =>
    intro fs r
    rw [List.foldl_cons]
    by_cases hd : isDirEntry e
    · have hstep : entryStep dest (fs, r) e = (fs, r) := by
        rw [entryStep, if_pos hd]
      rw [hstep, ih fs r]
      simp [List.filter_cons, hd, firstRootName]
    · have hstep : entryStep dest (fs, r) e
          = (fs ++ [pathJoin dest e], if r = [] then topSegment e else r) := by
        rw [entryStep, if_neg hd]
      rw [hstep, ih]
      by_cases hr : r = []
      · by_cases hts : topSegment e = []
        · simp [List.filter_cons, hd, firstRootName, hr, hts]
        · simp [List.filter_cons, hd, firstRootName, hr, hts]
      · have hr2 : (if r = [] then topSegment e else r) = r := if_neg hr
        simp [List.filter_cons, hd, firstRootName, hr, hr2]

/-- Membership in the missing-library list, phrased with the
specification-side substring proposition. -/
theorem mem_missingLibs (listing lib : List Char) :
    lib ∈ missingLibs listing ↔ lib ∈ requiredLibs ∧ ¬ OccursIn lib listing := by
  rw [missingLibs, List.mem_filter, ← hasSub_iff]
  simp

/-! ## Claim theorems -/

/-- Claim C1, counterexample: a 307 response carrying a Location header is
not treated as a redirect by `get` (the source only tests 301 and 302);
its body is piped to the sink and the call succeeds, so the claim quantifying
over every 3xx response fails. -/
theorem get_3xx_counterexample :
    300 ≤ 307 ∧ 307 < 400 ∧
    get ⟨307, some "X", some 1, [[7]]⟩ = (GetOutcome.success, [7]) := by
  decide

/-- Claim C1, amended: for every response whose status is 301 or 302 and
which carries a Location header, `get` rejects with a RedirectError whose
location equals the header value, and no bytes are written to the sink. -/
theorem get_redirect_rejects (res : HttpResponse) (x : String)
    (hstatus : res.statusCode = 301 ∨ res.statusCode = 302)
    (hloc : res.location = some x) :
    get res = (GetOutcome.redirectError (some x), []) := by
  rw [get, if_pos hstatus, hloc]

/-- Witness for the amended claim C1 at a concrete 302 response. -/
theorem get_redirect_rejects_witness :
    get ⟨302, some "X", none, [[1, 2]]⟩ = (GetOutcome.redirectError (some "X"), []) :=
  get_redirect_rejects ⟨302, some "X", none, [[1, 2]]⟩ "X" (Or.inr rfl) rfl

/-- Claim C2, counterexample: for an unrecognized operating system the
default case of the switch only prints the unsupported message and falls
through without `process.exit(1)`, so the process terminates normally
with status 0, contradicting the claim that every unsupported pair exits
with status 1. -/
theorem dispatch_unknown_os_counterexample :
    dispatch (Platform.other "freebsd") Arch.x64
        = DispatchAction.printUnsupportedAndContinue ∧
    dispatch (Platform.other "freebsd") Arch.x64 ≠ DispatchAction.exitOne ∧
    dispatchImmediateExit DispatchAction.printUnsupportedAndContinue = some 0 := by
  decide

/-- Claim C2, amended: for a recognized OS with an unsupported
architecture the switch calls `process.exit(1)` before any branch body
(hence before any network, filesystem or process side effect), and for
every supported pair it selects exactly one acquisition branch; for an
unrecognized OS it prints an error, runs no branch, and the process ends
normally with status 0. -/
theorem dispatch_cases (a : Arch) :
    dispatchImmediateExit DispatchAction.exitOne = some 1 ∧
    (a = Arch.x64 → dispatch Platform.win32 a = DispatchAction.runWin32) ∧
    (a ≠ Arch.x64 → dispatch Platform.win32 a = DispatchAction.exitOne) ∧
    ((a = Arch.x64 ∨ a = Arch.arm64) →
      dispatch Platform.linux a = DispatchAction.runLinux ∧
      dispatch Platform.darwin a = DispatchAction.runDarwin) ∧
    ((a ≠ Arch.x64 ∧ a ≠ Arch.arm64) →
      dispatch Platform.linux a = DispatchAction.exitOne ∧
      dispatch Platform.darwin a = DispatchAction.exitOne) ∧
    (∀ s, dispatch (Platform.other s) a = DispatchAction.printUnsupportedAndContinue ∧
      dispatchImmediateExit (dispatch (Platform.other s) a) = some 0) := by
  cases a <;> simp [dispatch, dispatchImmediateExit]

/-- Witness for the amended claim C2: win32 with arm64 exits with 1. -/
theorem dispatch_cases_witness :
    dispatch Platform.win32 Arch.arm64 = DispatchAction.exitOne :=
  (dispatch_cases Arch.arm64).2.2.1 (by decide)

/-- Claim C3: whenever the `handles` counter of a well-formed `unzipFile`
run reaches 0 (the exact condition under which `resolve` fires), the
zipfile `end` event has already fired and every write stream opened in
the whole run has already emitted `close`, so no file write is pending
when completion is observed. -/
theorem unzip_completion_after_end_and_closes (t : List ZipEvent)
    (hwf : ZipWF t) (n : Nat) (hn : n ≤ t.length)
    (hcomplete : handlesAfter (t.take n) = 0) :
    endCount (t.take n) = 1 ∧ ∀ i ∈ openIdxs t, i ∈ closeIdxs (t.take n) := by
  obtain ⟨hE, hCO, hO⟩ := zero_prefix_analysis hwf hn hcomplete
  refine ⟨hE, ?_⟩
  intro i hi
  rw [← hO] at hi
  exact nodup_subset_length_ge (closeIdxs_take_nodup hwf.2.1 n)
    (openIdxs_take_nodup hwf.1 n) ((hwf.2.2.2 n hn).1) (by omega) i hi

/-- Witness for claim C3 on the concrete run: open stream 0, close it,
then the end event; the counter reaches 0 exactly at the full trace. -/
theorem unzip_completion_witness :
    ZipWF [ZipEvent.openWrite 0, ZipEvent.closeWrite 0, ZipEvent.enumEnd] ∧
    handlesAfter
        ([ZipEvent.openWrite 0, ZipEvent.closeWrite 0, ZipEvent.enumEnd].take 3) = 0 ∧
    (endCount ([ZipEvent.openWrite 0, ZipEvent.closeWrite 0, ZipEvent.enumEnd].take 3) = 1 ∧
      ∀ i ∈ openIdxs [ZipEvent.openWrite 0, ZipEvent.closeWrite 0, ZipEvent.enumEnd],
        i ∈ closeIdxs ([ZipEvent.openWrite 0, ZipEvent.closeWrite 0, ZipEvent.enumEnd].take 3)) :=
  ⟨by decide, by decide,
    unzip_completion_after_end_and_closes
      [ZipEvent.openWrite 0, ZipEvent.closeWrite 0, ZipEvent.enumEnd]
      (by decide) 3 (by decide) (by decide)⟩

/-- Claim C4: along every well-formed `unzipFile` run the `handles`
counter never becomes negative, and the counter reaches 0 (the condition
firing `resolve`, which publishes the root entry name) at no more than
one prefix, so completion fires at most once. -/
theorem unzip_ledger_invariant (t : List ZipEvent) (hwf : ZipWF t) :
    (∀ n, 0 ≤ handlesAfter (t.take n)) ∧
    (∀ n m, n ≤ t.length → m ≤ t.length →
      handlesAfter (t.take n) = 0 → handlesAfter (t.take m) = 0 → n = m) :=
  ⟨handles_nonneg hwf, complete_unique hwf⟩

/-- Witness for claim C4 on a concrete run. -/
theorem unzip_ledger_invariant_witness :
    0 ≤ handlesAfter
        ([ZipEvent.openWrite 0, ZipEvent.closeWrite 0, ZipEvent.enumEnd].take 2) :=
  (unzip_ledger_invariant [ZipEvent.openWrite 0, ZipEvent.closeWrite 0, ZipEvent.enumEnd]
    (by decide)).1 2

/-- Claim C5, counterexample: with entries whose first non-directory name
begins with a slash, the recorded root entry name is not the top-level
segment of the first non-directory entry: the first file entry here has
an empty top-level segment, yet the extractor records the segment of the
second file entry. -/
theorem unzip_root_counterexample :
    isDirEntry "/a".toList = false ∧
    topSegment "/a".toList = [] ∧
    (unzipEntries "d".toList ["/a".toList, "b".toList]).2 = "b".toList ∧
    "b".toList ≠ topSegment "/a".toList ∧
    "b".toList ≠ "a".toList := by
  decide

/-- Claim C5, amended: processing entries in enumeration order, the
extractor creates no file for entries with a trailing slash, streams
every other entry to destDir joined with its relative path (in order),
and records as root entry name the first nonempty top-level segment among
the non-directory entries (the empty string when there is none; entries
whose top-level segment is empty are passed over for root recording,
though still extracted). -/
theorem unzipEntries_eq (dest : List Char) (entries : List (List Char)) :
    unzipEntries dest entries
      = ((entries.filter (fun n => ! isDirEntry n)).map (pathJoin dest),
         firstRootName entries) := by
  rw [unzipEntries, foldl_entryStep]
  simp

/-- Claim C6: each of the eight required libraries is marked missing
exactly when its exact name+version string does not occur as a substring
of the listing; when all eight occur the branch exits with status 0 and
prints no remediation text, and when any is absent it exits with
status 1. -/
theorem linux_verifier_correct (listing : List Char) :
    (∀ lib ∈ requiredLibs, (lib ∈ missingLibs listing ↔ ¬ OccursIn lib listing)) ∧
    requiredLibs.length = 8 ∧
    ((∀ lib ∈ requiredLibs, OccursIn lib listing) →
      linuxExit listing = 0 ∧ linuxRemediations listing = []) ∧
    ((∃ lib ∈ requiredLibs, ¬ OccursIn lib listing) → linuxExit listing = 1) := by
  refine ⟨?_, by decide, ?_, ?_⟩
  · intro lib hlib
    rw [mem_missingLibs]
    exact ⟨fun h => h.2, fun h => ⟨hlib, h⟩⟩
  · intro hall
    have hnil : missingLibs listing = [] := by
      by_contra hne
      obtain ⟨lib, hlib⟩ := List.exists_mem_of_ne_nil _ hne
      rcases (mem_missingLibs listing lib).1 hlib with ⟨hmem, hnocc⟩
      exact hnocc (hall lib hmem)
    constructor
    · rw [linuxExit, if_pos hnil]
    · rw [linuxRemediations, if_pos hnil]
  · rintro ⟨lib, hmem, hnocc⟩
    have hin : lib ∈ missingLibs listing := (mem_missingLibs listing lib).2 ⟨hmem, hnocc⟩
    have hne : missingLibs listing ≠ [] := fun h => by
      rw [h] at hin
      exact (List.not_mem_nil lib) hin
    rw [linuxExit, if_neg hne]

/-- A listing containing all eight required library strings. -/
def fullListing : List Char :=
  ("libavcodec.so.59 libavformat.so.59 libavdevice.so.59 libavfilter.so.8 libavutil.so.57 libpostproc.so.56 libswresample.so.4 libswscale.so.6").toList

/-- Witness for claim C6: with all eight libraries present the branch
exits 0 and prints no remediation text. -/
theorem linux_verifier_correct_witness :
    linuxExit fullListing = 0 ∧ linuxRemediations fullListing = [] :=
  (linux_verifier_correct fullListing).2.2.1 (by decide)

/-- Claim C9: when exactly one required library is missing from the
listing, the branch exits with status 1, prints the remediation block
exactly once, prints exactly one not-installed error line naming the
library, and the remediation block names that library's apt package. -/
theorem linux_single_missing (listing : List Char) (lib : List Char)
    (h : missingLibs listing = [lib]) :
    linuxExit listing = 1 ∧
    linuxRemediations listing = [remediationText] ∧
    linuxErrors listing = [lib ++ " is not installed.".toList] ∧
    OccursIn (devPackage lib) remediationText := by
  have hne : missingLibs listing ≠ [] := by rw [h]; exact List.cons_ne_nil lib []
  refine ⟨by rw [linuxExit, if_neg hne], by rw [linuxRemediations, if_neg hne], ?_, ?_⟩
  · rw [linuxErrors, h, List.map_cons, List.map_nil]
  · have hin : lib ∈ missingLibs listing := by
      rw [h]
      exact List.mem_singleton_self lib
    have hmem : lib ∈ requiredLibs := ((mem_missingLibs listing lib).1 hin).1
    have hcases := hmem
    rw [requiredLibs] at hcases
    simp only [List.mem_cons, List.mem_singleton, List.not_mem_nil, or_false] at hcases
    rcases hcases with rfl | rfl | rfl | rfl | rfl | rfl | rfl | rfl <;> decide

/-- A listing from which exactly `libpostproc.so.56` is missing. -/
def sevenListing : List Char :=
  ("libavcodec.so.59 libavformat.so.59 libavdevice.so.59 libavfilter.so.8 libavutil.so.57 libswresample.so.4 libswscale.so.6").toList

/-- Witness for claim C9 at a concrete listing missing exactly one
library. -/
theorem linux_single_missing_witness :
    linuxExit sevenListing = 1 ∧
    linuxRemediations sevenListing = [remediationText] ∧
    linuxErrors sevenListing
      = ["libpostproc.so.56".toList ++ " is not installed.".toList] ∧
    OccursIn (devPackage "libpostproc.so.56".toList) remediationText :=
  linux_single_missing sevenListing "libpostproc.so.56".toList (by decide)

/-- Claim C7, counterexample: when the first transfer fails with a
non-redirect error, the `catch` handler only logs it and the chain
continues, so the extractor and the rename do run, contradicting the
claim that they are not run. -/
theorem win32_failure_counterexample :
    win32Steps false TransferOutcome.failure TransferOutcome.ok
      = [WinStep.mkdirFfmpeg, WinStep.transferFirst, WinStep.logTransferError,
         WinStep.installYauzl, WinStep.unzip, WinStep.renameRoot] ∧
    WinStep.unzip ∈ win32Steps false TransferOutcome.failure TransferOutcome.ok ∧
    WinStep.renameRoot ∈ win32Steps false TransferOutcome.failure TransferOutcome.ok := by
  decide

/-- Claim C7, amended: a non-redirect failure of the first transfer is
caught and only logged, after which the chain still installs yauzl, runs
the extractor and the rename; it is a failure (or second redirect) of the
redirect-followed second transfer that propagates and aborts the chain
before extraction and rename. -/
theorem win32_failure_behaviour (second : TransferOutcome) (loc : String) :
    win32Steps false TransferOutcome.failure second
      = [WinStep.mkdirFfmpeg, WinStep.transferFirst, WinStep.logTransferError,
         WinStep.installYauzl, WinStep.unzip, WinStep.renameRoot] ∧
    win32Steps false (TransferOutcome.redirect loc) TransferOutcome.failure
      = [WinStep.mkdirFfmpeg, WinStep.transferFirst, WinStep.transferRedirected] ∧
    WinStep.unzip ∉ win32Steps false (TransferOutcome.redirect loc) TransferOutcome.failure ∧
    WinStep.renameRoot ∉ win32Steps false (TransferOutcome.redirect loc) TransferOutcome.failure := by
  refine ⟨?_, ?_, ?_, ?_⟩ <;> simp [win32Steps]

/-- Claim C8: when the failed query's stderr carries the recognized
not-found signal, installation is attempted; install success yields the
newly-acquired outcome with exit status 0 and install failure exits with
status 1; a query failure without the signal exits with status 1 without
attempting installation. -/
theorem darwin_bridge (stderr : List Char) (install : ExecResult) :
    (notFoundSignal stderr = true →
      (darwin (ExecResult.error stderr) install).2 = true ∧
      (∀ out, install = ExecResult.ok out →
        darwin (ExecResult.error stderr) install = (DarwinOutcome.installedNow, true) ∧
        darwinExit DarwinOutcome.installedNow = 0) ∧
      (∀ e, install = ExecResult.error e →
        darwin (ExecResult.error stderr) install = (DarwinOutcome.exitOne, true) ∧
        darwinExit DarwinOutcome.exitOne = 1)) ∧
    (notFoundSignal stderr = false →
      darwin (ExecResult.error stderr) install = (DarwinOutcome.exitOne, false) ∧
      darwinExit DarwinOutcome.exitOne = 1) := by
  cases install <;> constructor <;> intro h <;> simp [darwin, darwinExit, h]

/-- Witness for claim C8: a keg-not-found stderr and a successful install
give the newly-acquired outcome. -/
theorem darwin_bridge_witness :
    darwin (ExecResult.error ("Error: No such keg: ffmpeg@5").toList)
        (ExecResult.ok []) = (DarwinOutcome.installedNow, true) :=
  (((darwin_bridge ("Error: No such keg: ffmpeg@5").toList
    (ExecResult.ok [])).1 (by decide)).2.1 [] rfl).1

/-- Claim C10: the darwin branch is fatal without an install attempt
exactly when the failed query's stderr contains neither of the two
recognized substrings; when either occurs, installation is attempted. -/
theorem darwin_fatal_iff (stderr : List Char) (install : ExecResult) :
    (darwin (ExecResult.error stderr) install = (DarwinOutcome.exitOne, false)
      ↔ ¬ OccursIn ("Error: No such keg").toList stderr ∧
        ¬ OccursIn ("ffmpeg@5").toList stderr) ∧
    ((OccursIn ("Error: No such keg").toList stderr ∨
        OccursIn ("ffmpeg@5").toList stderr) →
      (darwin (ExecResult.error stderr) install).2 = true) := by
  have hsig : notFoundSignal stderr = true ↔
      OccursIn ("Error: No such keg").toList stderr ∨
        OccursIn ("ffmpeg@5").toList stderr := by
    rw [notFoundSignal, Bool.or_eq_true, hasSub_iff, hasSub_iff]
  cases hb : notFoundSignal stderr
  · have hno : ¬(OccursIn ("Error: No such keg").toList stderr ∨
        OccursIn ("ffmpeg@5").toList stderr) := fun hor => by
      have := hsig.2 hor
      rw [hb] at this
      exact Bool.false_ne_true this
    obtain ⟨hnA, hnB⟩ := not_or.1 hno
    refine ⟨⟨fun _ => ⟨hnA, hnB⟩, fun _ => ?_⟩, fun hor => absurd hor hno⟩
    cases install <;> simp [darwin, hb]
  · have hsnd : (darwin (ExecResult.error stderr) install).2 = true := by
      cases install <;> simp [darwin, hb]
    refine ⟨⟨fun heq => ?_, fun hn => ?_⟩, fun _ => hsnd⟩
    · rw [heq] at hsnd
      exact absurd hsnd (by decide)
    · exact absurd (hsig.1 hb) (not_or.2 ⟨hn.1, hn.2⟩)

/-- Witness for claim C10: stderr lacking both substrings is fatal with
no install attempt. -/
theorem darwin_fatal_iff_witness :
    darwin (ExecResult.error ("brew: command not found").toList)
        (ExecResult.ok []) = (DarwinOutcome.exitOne, false) :=
  (darwin_fatal_iff ("brew: command not found").toList
    (ExecResult.ok [])).1.2 ⟨by decide, by decide⟩

end InstallFfmpeg
